import Mathlib

/- A shallow embedding of the core services of the ai-job-hunt-agent
repository: the task ledger (task-service.ts), the approval gate and the
CV analysis pipeline (cv-agent.ts), the cache layer (cache-service.ts),
the sliding-window rate limiter (rate-limit-service.ts) and the CV
generation service (cv-generation-service.ts). Database tables are
modelled as lists of rows, timestamps as integer milliseconds since the
epoch, and external collaborators (the document store, the language-model
endpoint, JSON parsing of untrusted model output) as explicit parameters
of the embedded functions. -/

/-- JSON values: the payload type of the jsonb columns and of parsed
model output. -/
inductive Json where
  | null : Json
  | bool (b : Bool) : Json
  | num (n : Int) : Json
  | str (s : String) : Json
  | arr (items : List Json) : Json
  | obj (fields : List (String × Json)) : Json

/- ===================== Cache layer (cache-service.ts) ===================== -/

/-- Rows of the `cache` table (src/lib/db/schema.ts): `key` is a unique
column, `value` is jsonb, `expiresAt` a nullable timestamp. -/
structure CacheRow where
  key : String
  value : Json
  expiresAt : Option Int

/-- CacheService.generateKey (cache-service.ts lines 30-35): user-scoped
keys are `user:{userId}:{key}`, otherwise `public:{key}`. -/
def generateKey (key : String) (userId : Option String) : String :=
  match userId with
  | some uid => "user:" ++ uid ++ ":" ++ key
  | none => "public:" ++ key

/-- SQL upsert by the unique `key` column (`onConflictDoUpdate` with
target `cache.key`): the row carrying the key, if any, has its `value`
and `expiresAt` replaced; otherwise a fresh row is inserted. The schema's
unique constraint on `key` makes the first matching row the single
conflicting row. -/
def cacheUpsert : List CacheRow → String → Json → Int → List CacheRow
  | [], k, v, exp => [⟨k, v, some exp⟩]
  | r :: rs, k, v, exp =>
    if r.key = k then { r with value := v, expiresAt := some exp } :: rs
    else r :: cacheUpsert rs k v exp

/-- CacheService.set (cache-service.ts lines 44-68): scope the key, then
upsert with `expiresAt = Date.now() + ttl * 1000`. -/
def cacheSet (table : List CacheRow) (key : String) (value : Json)
    (userId : Option String) (ttl : Int) (now : Int) : List CacheRow :=
  cacheUpsert table (generateKey key userId) value (now + ttl * 1000)

/-- CacheService.set with the source's default `ttl` argument of 3600
seconds (cache-service.ts line 48). -/
def cacheSetDefault (table : List CacheRow) (key : String) (value : Json)
    (userId : Option String) (now : Int) : List CacheRow :=
  cacheSet table key value userId 3600 now

/-- CacheService.delete (cache-service.ts lines 106-110): delete every
row whose `key` equals the scoped key. -/
def cacheDelete (table : List CacheRow) (key : String)
    (userId : Option String) : List CacheRow :=
  table.filter fun r => !(r.key == generateKey key userId)

/-- Lookup of the first row carrying a scoped key (the `select … limit 1`
of CacheService.get). -/
def cacheFind (table : List CacheRow) (k : String) : Option CacheRow :=
  table.find? fun r => r.key == k

/-- CacheService.get (cache-service.ts lines 76-99): look the scoped key
up; on a hit whose `expiresAt` is non-null and strictly in the past,
delete the entry and miss; otherwise return the stored value. The result
pairs the returned value with the table after the call. -/
def cacheGet (table : List CacheRow) (key : String) (userId : Option String)
    (now : Int) : Option Json × List CacheRow :=
  match cacheFind table (generateKey key userId) with
  | none => (none, table)
  | some entry =>
    match entry.expiresAt with
    | some exp =>
      if exp < now then (none, cacheDelete table key userId)
      else (some entry.value, table)
    | none => (some entry.value, table)

/-- Deleting a key removes every row that a lookup of that key could
find. -/
theorem cacheFind_delete (table : List CacheRow) (key : String)
    (userId : Option String) :
    cacheFind (cacheDelete table key userId) (generateKey key userId) = none := by
  induction table with
  | nil => rfl
  | cons r rs ih =>
    by_cases h : r.key = generateKey key userId
    · simpa [cacheDelete, List.filter_cons, h] using ih
    · simp [cacheDelete, cacheFind, List.filter_cons, List.find?_cons, h, ih]

/-- Upserting a key makes a lookup of that key return the fresh row. -/
theorem cacheFind_upsert_self (table : List CacheRow) (k : String) (v : Json)
    (exp : Int) :
    cacheFind (cacheUpsert table k v exp) k = some ⟨k, v, some exp⟩ := by
  induction table with
  | nil => simp [cacheUpsert, cacheFind, List.find?_cons]
  | cons r rs ih =>
    by_cases h : r.key = k
    · simp [cacheUpsert, cacheFind, List.find?_cons, h]
    · have hb : (r.key == k) = false := by simpa using h
      simp only [cacheUpsert, cacheFind, List.find?_cons, if_neg h, hb]
      simpa [cacheFind] using ih

/-- Upserting a key leaves lookups of every other key unchanged. -/
theorem cacheFind_upsert_other (table : List CacheRow) (k k' : String)
    (v : Json) (exp : Int) (h : k' ≠ k) :
    cacheFind (cacheUpsert table k v exp) k' = cacheFind table k' := by
  have hks : k ≠ k' := Ne.symm h
  induction table with
  | nil => simp [cacheUpsert, cacheFind, List.find?_cons, hks]
  | cons r rs ih =>
    by_cases hr : r.key = k
    · simp [cacheUpsert, cacheFind, List.find?_cons, hr, hks]
    · by_cases hr' : r.key = k'
      · simp [cacheUpsert, cacheFind, List.find?_cons, hr, hr', h, hks]
      · simpa [cacheUpsert, cacheFind, List.find?_cons, hr, hr'] using ih

/-- Two user scopes agree only for the same user: the scoped key
determines the owner. -/
theorem generateKey_user_inj (u u' k : String)
    (h : generateKey k (some u) = generateKey k (some u')) : u = u' := by
  simp only [generateKey] at h
  have hd : (("user:" ++ u ++ ":" ++ k)).data = (("user:" ++ u' ++ ":" ++ k)).data :=
    congrArg String.data h
  rw [String.data_append, String.data_append, String.data_append,
    String.data_append, String.data_append, String.data_append] at hd
  have h2 := List.append_cancel_right hd
  have h3 := List.append_cancel_right h2
  have h4 := List.append_cancel_left h3
  exact String.ext h4

/-- A public scope never coincides with a user scope. -/
theorem generateKey_public_ne_user (u k k' : String) :
    generateKey k none ≠ generateKey k' (some u) := by
  intro h
  simp only [generateKey] at h
  have hd : (("public:" ++ k)).data = (("user:" ++ u ++ ":" ++ k')).data :=
    congrArg String.data h
  rw [String.data_append, String.data_append, String.data_append,
    String.data_append] at hd
  rw [show ("public:".data) = 'p' :: "ublic:".data from rfl,
    show ("user:".data) = 'u' :: "ser:".data from rfl] at hd
  rw [List.cons_append, List.cons_append, List.cons_append, List.cons_append] at hd
  injection hd with h1 _
  exact absurd h1 (by decide)

/-- C6: a `get` on a cache entry whose `expiresAt` is non-null and
earlier than the current time misses and deletes the entry, so a second
`get` on the same key also misses; a `get` on an entry that has not
expired returns its stored value. -/
theorem cacheGet_expired_misses_and_deletes (table : List CacheRow)
    (key : String) (userId : Option String) (now : Int) :
    (∀ entry exp, cacheFind table (generateKey key userId) = some entry →
      entry.expiresAt = some exp → exp < now →
      cacheGet table key userId now = (none, cacheDelete table key userId)
        ∧ (cacheGet (cacheDelete table key userId) key userId now).1 = none)
    ∧ (∀ entry, cacheFind table (generateKey key userId) = some entry →
      (∀ exp, entry.expiresAt = some exp → ¬ exp < now) →
      cacheGet table key userId now = (some entry.value, table)) := by
  constructor
  · intro entry exp hfind hexp hlt
    constructor
    · simp [cacheGet, hfind, hexp, hlt]
    · simp [cacheGet, cacheFind_delete]
  · intro entry hfind hexp
    cases he : entry.expiresAt with
    | none => simp [cacheGet, hfind, he]
    | some exp => simp [cacheGet, hfind, he, hexp exp he]

theorem cacheGet_expired_misses_and_deletes_witness :
    cacheGet [⟨"public:k", Json.str "v", some 5⟩] "k" none 10
        = (none, cacheDelete [⟨"public:k", Json.str "v", some 5⟩] "k" none)
      ∧ (cacheGet (cacheDelete [⟨"public:k", Json.str "v", some 5⟩] "k" none)
          "k" none 10).1 = none :=
  (cacheGet_expired_misses_and_deletes
      [⟨"public:k", Json.str "v", some 5⟩] "k" none 10).1
    ⟨"public:k", Json.str "v", some 5⟩ 5 rfl rfl (by decide)

/-- C7: scoping is applied identically on read and write. After
`set key v (some u)`, a `get key (some u)` before expiry returns `v`,
while a `get` of the same logical key by a different owner, or with no
owner, observes exactly what it observed before the `set`. -/
theorem cache_scoping_read_write (table : List CacheRow) (k : String)
    (v : Json) (u : String) (ttl now now' : Int) :
    (¬ now + ttl * 1000 < now' →
      (cacheGet (cacheSet table k v (some u) ttl now) k (some u) now').1 = some v)
    ∧ (∀ u', u' ≠ u →
      (cacheGet (cacheSet table k v (some u) ttl now) k (some u') now').1
        = (cacheGet table k (some u') now').1)
    ∧ (cacheGet (cacheSet table k v (some u) ttl now) k none now').1
        = (cacheGet table k none now').1 := by
  refine ⟨?_, ?_, ?_⟩
  · intro hfresh
    simp [cacheGet, cacheSet, cacheFind_upsert_self, hfresh]
  · intro u' hu
    have hne : generateKey k (some u') ≠ generateKey k (some u) := fun h =>
      hu (generateKey_user_inj u' u k h)
    have hfind := cacheFind_upsert_other table (generateKey k (some u))
      (generateKey k (some u')) v (now + ttl * 1000) hne
    cases hf : cacheFind table (generateKey k (some u')) with
    | none => simp [cacheGet, cacheSet, hfind, hf]
    | some entry =>
      cases he : entry.expiresAt with
      | none => simp [cacheGet, cacheSet, hfind, hf, he]
      | some exp =>
        by_cases hlt : exp < now'
        · simp [cacheGet, cacheSet, hfind, hf, he, hlt]
        · simp [cacheGet, cacheSet, hfind, hf, he, hlt]
  · have hne : generateKey k none ≠ generateKey k (some u) :=
      generateKey_public_ne_user u k k
    have hfind := cacheFind_upsert_other table (generateKey k (some u))
      (generateKey k none) v (now + ttl * 1000) hne
    cases hf : cacheFind table (generateKey k none) with
    | none => simp [cacheGet, cacheSet, hfind, hf]
    | some entry =>
      cases he : entry.expiresAt with
      | none => simp [cacheGet, cacheSet, hfind, hf, he]
      | some exp =>
        by_cases hlt : exp < now'
        · simp [cacheGet, cacheSet, hfind, hf, he, hlt]
        · simp [cacheGet, cacheSet, hfind, hf, he, hlt]

theorem cache_scoping_read_write_witness :
    (cacheGet (cacheSet [] "k" (Json.str "v") (some "alice") 60 0) "k"
        (some "alice") 100).1 = some (Json.str "v")
      ∧ (cacheGet (cacheSet [] "k" (Json.str "v") (some "alice") 60 0) "k"
          (some "bob") 100).1 = (cacheGet [] "k" (some "bob") 100).1 :=
  ⟨(cache_scoping_read_write [] "k" (Json.str "v") "alice" 60 0 100).1 (by decide),
   (cache_scoping_read_write [] "k" (Json.str "v") "alice" 60 0 100).2.1 "bob"
     (by decide)⟩

/-- C10: every entry written through `set` carries the non-null expiry
`now + ttl * 1000`, also when the write overwrites an existing key, and
the ttl defaults to 3600 seconds. -/
theorem cacheSet_always_sets_expiry (table : List CacheRow) (k : String)
    (v : Json) (userId : Option String) (ttl now : Int) :
    cacheFind (cacheSet table k v userId ttl now) (generateKey k userId)
        = some ⟨generateKey k userId, v, some (now + ttl * 1000)⟩
      ∧ cacheSetDefault table k v userId now = cacheSet table k v userId 3600 now :=
  ⟨cacheFind_upsert_self table (generateKey k userId) v (now + ttl * 1000), rfl⟩

/- ===================== Task ledger (task-service.ts) ===================== -/

/-- Rows of the `tasks` table (src/lib/db/schema.ts). -/
structure TaskRow where
  id : String
  userId : String
  sessionId : String
  taskType : String
  status : String
  result : Option Json
  errorMessage : Option String
  metadata : Option Json
  createdAt : Int
  completedAt : Option Int

/-- Field changes TaskService.updateTaskStatus (task-service.ts lines
91-115) applies to a row: `status` is always overwritten; `completedAt`
is stamped when the new status is terminal; `result` is written when
supplied; `errorMessage` is written when supplied and truthy (the
JavaScript `if (errorMessage)` guard leaves an empty string unwritten). -/
def applyTaskUpdate (t : TaskRow) (status : String) (result : Option Json)
    (errorMessage : Option String) (now : Int) : TaskRow :=
  { t with
    status := status
    completedAt :=
      if status = "completed" ∨ status = "failed" then some now else t.completedAt
    result :=
      match result with
      | some r => some r
      | none => t.result
    errorMessage :=
      match errorMessage with
      | some e => if e = "" then t.errorMessage else some e
      | none => t.errorMessage }

/-- TaskService.updateTaskStatus: `update tasks set … where id = taskId`,
with no guard on the row's current status. -/
def updateTaskStatus (table : List TaskRow) (taskId status : String)
    (result : Option Json) (errorMessage : Option String) (now : Int) :
    List TaskRow :=
  table.map fun t =>
    if t.id = taskId then applyTaskUpdate t status result errorMessage now else t

/-- TaskService.completeTask (task-service.ts lines 122-124). -/
def completeTask (table : List TaskRow) (taskId : String) (result : Json)
    (now : Int) : List TaskRow :=
  updateTaskStatus table taskId "completed" (some result) none now

/-- TaskService.failTask (task-service.ts lines 131-133). -/
def failTask (table : List TaskRow) (taskId errorMessage : String)
    (now : Int) : List TaskRow :=
  updateTaskStatus table taskId "failed" none (some errorMessage) now

/-- TaskService.getTask (task-service.ts lines 61-82): `select … limit 1`
filtered by id, and additionally by owner when a caller id is supplied;
the service returns null when no row matches. -/
def getTask (table : List TaskRow) (taskId : String) (userId : Option String) :
    Option TaskRow :=
  match userId with
  | some uid => table.find? fun t => t.id == taskId && t.userId == uid
  | none => table.find? fun t => t.id == taskId

/-- C1 (counterexample): a failTask call on a task already in the
terminal status `completed` is neither rejected nor a no-op: the row's
status is overwritten backwards to `failed` and completedAt is
re-stamped. -/
theorem failTask_mutates_terminal_task :
    failTask [⟨"t1", "u1", "s1", "cv_analysis", "completed", none, none, none, 0,
        some 5⟩] "t1" "boom" 9
      = [⟨"t1", "u1", "s1", "cv_analysis", "failed", none, some "boom", none, 0,
          some 9⟩]
    ∧ ("failed" : String) ≠ "completed" :=
  ⟨rfl, by decide⟩

/-- C1 (amended): updateTaskStatus, completeTask and failTask apply their
update unconditionally to every row matching the task id: the written
status is always the status argument regardless of the row's prior
(possibly terminal) status, completedAt is stamped whenever the new
status is terminal, and no guard rejects a second terminal transition. -/
theorem updateTaskStatus_unconditional (table : List TaskRow)
    (taskId status : String) (result : Option Json)
    (errorMessage : Option String) (now : Int) :
    updateTaskStatus table taskId status result errorMessage now
        = (table.map fun t =>
            if t.id = taskId then applyTaskUpdate t status result errorMessage now
            else t)
      ∧ (∀ t : TaskRow, (applyTaskUpdate t status result errorMessage now).status
          = status)
      ∧ (∀ t : TaskRow, status = "completed" ∨ status = "failed" →
          (applyTaskUpdate t status result errorMessage now).completedAt = some now)
      ∧ (∀ r : Json, completeTask table taskId r now
          = updateTaskStatus table taskId "completed" (some r) none now)
      ∧ (∀ msg : String, failTask table taskId msg now
          = updateTaskStatus table taskId "failed" none (some msg) now) := by
  refine ⟨rfl, fun t => rfl, ?_, fun r => rfl, fun msg => rfl⟩
  intro t h
  simp [applyTaskUpdate, if_pos h]

theorem updateTaskStatus_unconditional_witness :
    (applyTaskUpdate ⟨"t1", "u1", "s1", "cv_analysis", "completed", none, none,
        none, 0, some 5⟩ "failed" none (some "boom") 9).completedAt = some 9 :=
  (updateTaskStatus_unconditional [] "t1" "failed" none (some "boom") 9).2.2.1
    ⟨"t1", "u1", "s1", "cv_analysis", "completed", none, none, none, 0, some 5⟩
    (Or.inr rfl)

/-- C9: when a caller id is supplied that differs from the owner of every
row carrying the requested task id, getTask returns none, exactly as it
does for a task id present on no row at all. -/
theorem getTask_nonowner_indistinguishable (table : List TaskRow) (t : TaskRow)
    (u : String) (_ht : t ∈ table) (hu : u ≠ t.userId)
    (hid : ∀ r ∈ table, r.id = t.id → r.userId = t.userId) :
    getTask table t.id (some u) = none
      ∧ ∀ freshId : String, (∀ r ∈ table, r.id ≠ freshId) →
          getTask table freshId (some u) = none := by
  constructor
  · simp only [getTask]
    rw [List.find?_eq_none]
    intro x hx
    simp only [Bool.and_eq_true, beq_iff_eq, not_and]
    intro hxid hxu
    exact hu (hxu.symm.trans (hid x hx hxid))
  · intro freshId hfresh
    simp only [getTask]
    rw [List.find?_eq_none]
    intro x hx
    simp only [Bool.and_eq_true, beq_iff_eq, not_and]
    intro hxid
    exact absurd hxid (hfresh x hx)

theorem getTask_nonowner_indistinguishable_witness :
    getTask [⟨"t1", "owner", "s1", "cv_analysis", "processing", none, none, none,
        0, none⟩] "t1" (some "mallory") = none
      ∧ getTask [⟨"t1", "owner", "s1", "cv_analysis", "processing", none, none,
          none, 0, none⟩] "t2" (some "mallory") = none := by
  have h := getTask_nonowner_indistinguishable
    [⟨"t1", "owner", "s1", "cv_analysis", "processing", none, none, none, 0, none⟩]
    ⟨"t1", "owner", "s1", "cv_analysis", "processing", none, none, none, 0, none⟩
    "mallory" (by simp) (by decide)
    (by intro r hr _; simp at hr; subst hr; rfl)
  refine ⟨h.1, h.2 "t2" ?_⟩
  intro r hr
  simp at hr
  subst hr
  decide

/- ================ Approval gate (cv-agent.ts handleApproval) ================ -/

/-- Rows of the `approvals` table (src/lib/db/schema.ts). -/
structure ApprovalRow where
  id : String
  sessionId : String
  userId : String
  documentId : Option String
  changeType : String
  originalContent : Json
  proposedContent : Json
  status : String
  userFeedback : Option String
  createdAt : Int
  decidedAt : Option Int

/-- Field changes CVAgent.handleApproval (cv-agent.ts lines 357-380)
applies to a matched row: status, user_feedback and decided_at are all
overwritten. -/
def applyDecision (a : ApprovalRow) (decision : String)
    (feedback : Option String) (now : Int) : ApprovalRow :=
  { a with status := decision, userFeedback := feedback, decidedAt := some now }

/-- CVAgent.handleApproval: `update approvals set status, user_feedback,
decided_at where id = approvalId and user_id = userId`, followed by
`.select().single()`, which errors exactly when the update matched no
row (`id` is the primary key, so at most one row matches). There is no
filter on the row's current status. -/
def handleApproval (table : List ApprovalRow) (approvalId decision : String)
    (feedback : Option String) (userId : String) (now : Int) :
    Except String ApprovalRow × List ApprovalRow :=
  let updated := table.map fun a =>
    if a.id = approvalId ∧ a.userId = userId
    then applyDecision a decision feedback now else a
  match updated.find? (fun a => a.id == approvalId && a.userId == userId) with
  | some row => (Except.ok row, updated)
  | none => (Except.error "Failed to update approval", table)

/-- C2 (counterexample): deciding an approval whose status is already
`approved` (hence not pending) does not fail with a conflict: the call
succeeds and overwrites status, user feedback and decided-at. -/
theorem handleApproval_overwrites_decided :
    handleApproval [⟨"a1", "s1", "u1", none, "edit", Json.null, Json.null,
        "approved", some "fine", 0, some 3⟩] "a1" "rejected" (some "changed")
        "u1" 9
      = (Except.ok ⟨"a1", "s1", "u1", none, "edit", Json.null, Json.null,
          "rejected", some "changed", 0, some 9⟩,
         [⟨"a1", "s1", "u1", none, "edit", Json.null, Json.null,
           "rejected", some "changed", 0, some 9⟩])
    ∧ ("approved" : String) ≠ "pending" :=
  ⟨rfl, by decide⟩

/-- C2 (amended): handleApproval has no conflict guard: it succeeds if
and only if some row matches the approval id and the caller id,
irrespective of that row's current status, and on success the matched
row's status, user feedback and decided-at are overwritten with the new
decision. -/
theorem handleApproval_no_conflict_guard (table : List ApprovalRow)
    (approvalId decision : String) (feedback : Option String) (userId : String)
    (now : Int) :
    ((handleApproval table approvalId decision feedback userId now).1.isOk = true
        ↔ ∃ a ∈ table, a.id = approvalId ∧ a.userId = userId)
      ∧ (∀ a : ApprovalRow, (applyDecision a decision feedback now).status = decision
          ∧ (applyDecision a decision feedback now).userFeedback = feedback
          ∧ (applyDecision a decision feedback now).decidedAt = some now)
      ∧ ((∃ a ∈ table, a.id = approvalId ∧ a.userId = userId) →
          (handleApproval table approvalId decision feedback userId now).2
            = table.map fun a =>
                if a.id = approvalId ∧ a.userId = userId
                then applyDecision a decision feedback now else a) := by
  have hpres : ∀ a : ApprovalRow,
      ((if a.id = approvalId ∧ a.userId = userId
        then applyDecision a decision feedback now else a).id = a.id
      ∧ (if a.id = approvalId ∧ a.userId = userId
        then applyDecision a decision feedback now else a).userId = a.userId) := by
    intro a
    by_cases h : a.id = approvalId ∧ a.userId = userId <;>
      simp [applyDecision, h]
  have hex : (∃ a ∈ (table.map fun a =>
        if a.id = approvalId ∧ a.userId = userId
        then applyDecision a decision feedback now else a),
        (a.id == approvalId && a.userId == userId) = true)
      ↔ ∃ a ∈ table, a.id = approvalId ∧ a.userId = userId := by
    simp only [List.mem_map]
    constructor
    · rintro ⟨b, ⟨a, ha, rfl⟩, hb⟩
      simp only [Bool.and_eq_true, beq_iff_eq, (hpres a).1, (hpres a).2] at hb
      exact ⟨a, ha, hb⟩
    · rintro ⟨a, ha, h⟩
      refine ⟨_, ⟨a, ha, rfl⟩, ?_⟩
      simp only [Bool.and_eq_true, beq_iff_eq, (hpres a).1, (hpres a).2]
      exact h
  refine ⟨?_, fun a => ⟨rfl, rfl, rfl⟩, ?_⟩
  · cases hf : (table.map fun a =>
        if a.id = approvalId ∧ a.userId = userId
        then applyDecision a decision feedback now else a).find?
        (fun a => a.id == approvalId && a.userId == userId) with
    | none =>
      have hnone := List.find?_eq_none.mp hf
      simp only [handleApproval, hf, Except.isOk, Except.toBool]
      constructor
      · intro h
        exact absurd h (by decide)
      · intro h
        exact absurd (hex.mpr h) (by simpa using fun a ha hp => hnone a ha hp)
    | some row =>
      simp only [handleApproval, hf, Except.isOk, Except.toBool]
      refine ⟨fun _ => hex.mp ⟨row, List.mem_of_find?_eq_some hf,
        by simpa using List.find?_some hf⟩, fun _ => trivial⟩
  · intro h
    cases hf : (table.map fun a =>
        if a.id = approvalId ∧ a.userId = userId
        then applyDecision a decision feedback now else a).find?
        (fun a => a.id == approvalId && a.userId == userId) with
    | none =>
      have hnone := List.find?_eq_none.mp hf
      exact absurd (hex.mpr h) (by simpa using fun a ha hp => hnone a ha hp)
    | some row =>
      simp only [handleApproval, hf]

theorem handleApproval_no_conflict_guard_witness :
    (handleApproval [⟨"a1", "s1", "u1", none, "edit", Json.null, Json.null,
        "pending", none, 0, none⟩] "a1" "approved" none "u1" 7).1.isOk = true := by
  have h := (handleApproval_no_conflict_guard [⟨"a1", "s1", "u1", none, "edit",
    Json.null, Json.null, "pending", none, 0, none⟩] "a1" "approved" none "u1" 7).1
  exact h.mpr ⟨⟨"a1", "s1", "u1", none, "edit", Json.null, Json.null,
    "pending", none, 0, none⟩, by simp, rfl, rfl⟩

/- ============== Rate limiter (rate-limit-service.ts) ============== -/

/-- Rows of the `rate_limits` table (src/lib/db/schema.ts). -/
structure RateLimitHit where
  identifier : String
  createdAt : Int
deriving DecidableEq

/-- Result record of RateLimitService.checkLimit (rate-limit-service.ts
lines 12-17). -/
structure RateLimitResult where
  success : Bool
  limit : Nat
  remaining : Nat
  reset : Int
deriving DecidableEq

/-- Count of this identifier's hits inside the sliding window: rows with
`identifier` equal and `createdAt >= now - window * 1000` (the
`select … where and(eq(identifier), gte(createdAt, windowStart))` of
checkLimit, lines 37-51). -/
def rlCount (table : List RateLimitHit) (identifier : String) (window : Nat)
    (now : Int) : Nat :=
  (table.filter fun h =>
    h.identifier == identifier
      && decide (now - (window : Int) * 1000 ≤ h.createdAt)).length

/-- RateLimitService.checkLimit (rate-limit-service.ts lines 32-77):
count the hits in the window; at or above the limit, deny and record
nothing; below it, record one hit and allow. The JavaScript
`Math.max(0, limit - requestCount - 1)` is the truncated natural
subtraction. -/
def checkLimit (table : List RateLimitHit) (identifier : String)
    (limit window : Nat) (now : Int) : RateLimitResult × List RateLimitHit :=
  let requestCount := rlCount table identifier window now
  let remaining := limit - requestCount - 1
  let reset := now + (window : Int) * 1000
  if limit ≤ requestCount then
    (⟨false, limit, 0, reset⟩, table)
  else
    (⟨true, limit, remaining, reset⟩, table ++ [⟨identifier, now⟩])

/-- A sequence of checkLimit calls for one identifier at the given times,
each threading the table left by the previous call; returns the final
table and the list of allowed/denied outcomes. -/
def runCalls (identifier : String) (limit window : Nat) :
    List RateLimitHit → List Int → List RateLimitHit × List Bool
  | table, [] => (table, [])
  | table, t :: ts =>
    let r := checkLimit table identifier limit window t
    let rest := runCalls identifier limit window r.2 ts
    (rest.1, r.1.success :: rest.2)

/-- When every hit of the identifier lies at or after `lo`, a count taken
at any time up to `lo + window * 1000` sees all of them. -/
theorem rlCount_eq_own (table : List RateLimitHit) (ident : String)
    (window : Nat) (lo now : Int)
    (hhits : ∀ hit ∈ table, hit.identifier = ident → lo ≤ hit.createdAt)
    (hnow : now ≤ lo + (window : Int) * 1000) :
    rlCount table ident window now
      = (table.filter fun h => h.identifier == ident).length := by
  simp only [rlCount]
  apply congrArg List.length
  apply List.filter_congr
  intro hit hmem
  by_cases hident : hit.identifier = ident
  · have hle : now - (window : Int) * 1000 ≤ hit.createdAt :=
      le_trans (by linarith) (hhits hit hmem hident)
    simp [hident, hle]
  · simp [hident]

/-- Outcome list of a call sequence whose times all lie within one
window: starting from `k` own hits (all at or after `lo`), the i-th call
is allowed exactly when `k + i < limit`. -/
theorem runCalls_results (ident : String) (limit window : Nat) (lo : Int)
    (times : List Int) :
    ∀ table : List RateLimitHit,
      (∀ hit ∈ table, hit.identifier = ident → lo ≤ hit.createdAt) →
      (∀ t ∈ times, lo ≤ t ∧ t ≤ lo + (window : Int) * 1000) →
      (runCalls ident limit window table times).2
        = (List.range times.length).map
            (fun i => decide
              ((table.filter fun h => h.identifier == ident).length + i < limit)) := by
  induction times with
  | nil => intro table _ _; simp [runCalls]
  | cons t ts ih =>
    intro table hhits htimes
    have ht := htimes t (by simp)
    have hcnt : rlCount table ident window t
        = (table.filter fun h => h.identifier == ident).length :=
      rlCount_eq_own table ident window lo t hhits ht.2
    by_cases hlim : limit ≤ (table.filter fun h => h.identifier == ident).length
    · have hcheck : checkLimit table ident limit window t
          = (⟨false, limit, 0, t + (window : Int) * 1000⟩, table) := by
        simp [checkLimit, hcnt, hlim]
      have hrec := ih table hhits (fun t' ht' => htimes t' (by simp [ht']))
      simp only [runCalls, hcheck, hrec, List.length_cons,
        List.range_succ_eq_map, List.map_cons, List.map_map]
      refine congrArg₂ List.cons ?_ ?_
      · symm
        simp only [decide_eq_false_iff_not]
        omega
      · apply List.map_congr_left
        intro i _
        simp only [Function.comp_apply]
        exact decide_eq_decide.mpr (by omega)
    · have hcheck : checkLimit table ident limit window t
          = (⟨true, limit,
              limit - (table.filter fun h => h.identifier == ident).length - 1,
              t + (window : Int) * 1000⟩,
             table ++ [(⟨ident, t⟩ : RateLimitHit)]) := by
        simp [checkLimit, hcnt, hlim]
      have hhits' : ∀ hit ∈ table ++ [(⟨ident, t⟩ : RateLimitHit)],
          hit.identifier = ident → lo ≤ hit.createdAt := by
        intro hit hmem hident
        rcases List.mem_append.mp hmem with hm | hm
        · exact hhits hit hm hident
        · simp at hm
          subst hm
          exact ht.1
      have hcount' : ((table ++ [(⟨ident, t⟩ : RateLimitHit)]).filter
          fun h => h.identifier == ident).length
          = (table.filter fun h => h.identifier == ident).length + 1 := by
        simp [List.filter_append]
      have hrec := ih (table ++ [(⟨ident, t⟩ : RateLimitHit)]) hhits'
        (fun t' ht' => htimes t' (by simp [ht']))
      rw [hcount'] at hrec
      simp only [runCalls, hcheck, hrec, List.length_cons,
        List.range_succ_eq_map, List.map_cons, List.map_map]
      refine congrArg₂ List.cons ?_ ?_
      · symm
        simp only [decide_eq_true_eq]
        omega
      · apply List.map_congr_left
        intro i _
        simp only [Function.comp_apply]
        exact decide_eq_decide.mpr (by omega)

/-- C4: checkLimit counts the identifier's hits with
`createdAt >= now - window * 1000`; at or above the limit it denies and
records nothing, below it it records exactly one new hit and returns
`remaining = limit - count - 1`; starting from no hits for the
identifier, the i-th of a sequence of calls within one window is allowed
exactly when `i < limit` (so exactly `limit` calls succeed and the
`limit+1`-th is denied), and once every hit of the identifier has fallen
out of the window a further call is allowed again. -/
theorem checkLimit_sliding_window (ident : String) (limit window : Nat) :
    (∀ (table : List RateLimitHit) (now : Int),
        limit ≤ rlCount table ident window now →
        checkLimit table ident limit window now
          = (⟨false, limit, 0, now + (window : Int) * 1000⟩, table))
      ∧ (∀ (table : List RateLimitHit) (now : Int),
          rlCount table ident window now < limit →
          checkLimit table ident limit window now
            = (⟨true, limit, limit - rlCount table ident window now - 1,
                now + (window : Int) * 1000⟩, table ++ [⟨ident, now⟩]))
      ∧ (∀ (table : List RateLimitHit) (lo : Int) (times : List Int),
          (∀ hit ∈ table, hit.identifier ≠ ident) →
          (∀ t ∈ times, lo ≤ t ∧ t ≤ lo + (window : Int) * 1000) →
          (runCalls ident limit window table times).2
            = (List.range times.length).map (fun i => decide (i < limit)))
      ∧ (∀ (table : List RateLimitHit) (now : Int), 0 < limit →
          (∀ hit ∈ table, hit.identifier = ident →
            hit.createdAt < now - (window : Int) * 1000) →
          (checkLimit table ident limit window now).1.success = true
            ∧ (checkLimit table ident limit window now).2
                = table ++ [⟨ident, now⟩]) := by
  refine ⟨?_, ?_, ?_, ?_⟩
  · intro table now h
    simp [checkLimit, h]
  · intro table now h
    simp [checkLimit, Nat.not_le_of_lt h]
  · intro table lo times hnone htimes
    have hempty : (table.filter fun h => h.identifier == ident) = [] := by
      apply List.filter_eq_nil_iff.mpr
      intro hit hmem
      simp [hnone hit hmem]
    have hhits : ∀ hit ∈ table, hit.identifier = ident → lo ≤ hit.createdAt :=
      fun hit hmem hident => absurd hident (hnone hit hmem)
    have h := runCalls_results ident limit window lo times table hhits htimes
    rw [hempty] at h
    simpa using h
  · intro table now hpos hold
    have hzero : rlCount table ident window now = 0 := by
      simp only [rlCount, List.length_eq_zero]
      apply List.filter_eq_nil_iff.mpr
      intro hit hmem
      by_cases hident : hit.identifier = ident
      · simp [hident, not_le.mpr (hold hit hmem hident)]
      · simp [hident]
    constructor
    · simp [checkLimit, hzero, Nat.not_le_of_lt hpos]
    · simp [checkLimit, hzero, Nat.not_le_of_lt hpos]

theorem checkLimit_sliding_window_witness :
    (runCalls "ip" 2 60 [] [0, 1000, 2000]).2 = [true, true, false]
      ∧ (checkLimit [⟨"ip", 0⟩, ⟨"ip", 500⟩] "ip" 2 60 70000).1.success = true := by
  have h3 := (checkLimit_sliding_window "ip" 2 60).2.2.1 [] 0 [0, 1000, 2000]
    (by simp)
    (by intro t htt; simp at htt
        rcases htt with rfl | rfl | rfl <;> exact ⟨by decide, by decide⟩)
  have h4 := (checkLimit_sliding_window "ip" 2 60).2.2.2
    [⟨"ip", 0⟩, ⟨"ip", 500⟩] 70000 (by decide)
    (by intro hit hmem _
        simp at hmem
        rcases hmem with rfl | rfl <;> decide)
  refine ⟨?_, h4.1⟩
  rw [h3]
  decide

/- ============== CV analysis pipeline (cv-agent.ts) ============== -/

/-- Code-fence stripping of `content.replace(/```json\n?/g, '')` applied
to model output before JSON parsing (cv-agent.ts lines 151-154 and
206-209; interview-agent.ts lines 185-188): occurrences of the fence
token are removed left to right, each together with its optional
trailing newline ('\x60' is the backquote character). -/
def stripJsonFence : List Char → List Char
  | '\x60' :: '\x60' :: '\x60' :: 'j' :: 's' :: 'o' :: 'n' :: '\n' :: rest =>
    stripJsonFence rest
  | '\x60' :: '\x60' :: '\x60' :: 'j' :: 's' :: 'o' :: 'n' :: rest =>
    stripJsonFence rest
  | c :: cs => c :: stripJsonFence cs
  | [] => []

/-- Code-fence stripping of the second replace, `/```\n?/g`. -/
def stripFence : List Char → List Char
  | '\x60' :: '\x60' :: '\x60' :: '\n' :: rest => stripFence rest
  | '\x60' :: '\x60' :: '\x60' :: rest => stripFence rest
  | c :: cs => c :: stripFence cs
  | [] => []

/-- The full cleaning pipeline applied to raw model output: strip
```json fences, strip bare ``` fences, then trim surrounding
whitespace. -/
def trimChars (l : List Char) : List Char :=
  ((l.dropWhile Char.isWhitespace).reverse.dropWhile Char.isWhitespace).reverse

/-- JavaScript `.trim()`: drop leading and trailing whitespace. -/
def trimString (s : String) : String :=
  String.mk (trimChars s.data)

/-- JavaScript `.toUpperCase()` on the ASCII change types in use. -/
def toUpperString (s : String) : String :=
  String.mk (s.data.map Char.toUpper)

def cleanContent (s : String) : String :=
  trimString (String.mk (stripFence (stripJsonFence s.data)))

/-- One `tasks` insert issued by saveResultsNode. -/
structure TaskInsert where
  sessionId : String
  userId : String
  taskType : String
  status : String
  result : Option Json
  errorMessage : Option String

/-- One `approvals` row of the batch insert issued by saveResultsNode. -/
structure ApprovalInsert where
  sessionId : String
  userId : String
  documentId : String
  changeType : String
  originalContent : Json
  proposedContent : Json
  status : String

/-- Effects a pipeline run emits, in order: external model calls (tagged
by stage name) and database inserts. -/
inductive DbOp where
  | llmCall (stage : String) : DbOp
  | taskInsert (row : TaskInsert) : DbOp
  | approvalInsert (rows : List ApprovalInsert) : DbOp

/-- Recognizer for task inserts in an effect trace. -/
def isTaskInsert : DbOp → Bool
  | DbOp.taskInsert _ => true
  | _ => false

/-- The pipeline state threaded through the stages (cv-agent.ts lines
6-15). -/
structure CVState where
  userId : String
  sessionId : String
  documentId : String
  cvContent : Json
  analysis : Json
  improvements : List Json
  approvalStatus : String
  error : Option String

/-- External collaborators of one analyzeCV run: the document fetch
(which throws on a missing or foreign document), the two model call
outcomes, the JSON parser applied to cleaned model output, and the
logged-but-ignored outcomes of the two inserts. -/
structure CVEnv where
  document : Except String (Option Json)
  structureResponse : Except String String
  improvementsResponse : Except String String
  parse : String → Option Json
  taskInsertError : Option String
  approvalInsertError : Option String

/-- First binding of a field in a JSON object, none on other shapes. -/
def jsonField (j : Json) (name : String) : Option Json :=
  match j with
  | Json.obj fields => (fields.find? fun f => f.1 == name).map (fun f => f.2)
  | _ => none

/-- Read of `data.field || []` as an array: a missing or non-array field
is treated as the empty list. -/
def jsonArrayField (j : Json) (name : String) : List Json :=
  match jsonField j name with
  | some (Json.arr xs) => xs
  | _ => []

/-- Read of `improvement.type || 'edit'` (cv-agent.ts line 290): a
missing, non-string or empty type falls back to `edit`. -/
def improvementChangeType (imp : Json) : String :=
  match jsonField imp "type" with
  | some (Json.str s) => if s = "" then "edit" else s
  | _ => "edit"

/-- Read of `{ text: improvement.originalContent || null }` (cv-agent.ts
line 291), with JavaScript falsiness mapping empty strings, zero and
false to null. -/
def improvementOriginalContent (imp : Json) : Json :=
  Json.obj [("text",
    match jsonField imp "originalContent" with
    | some (Json.str s) => if s = "" then Json.null else Json.str s
    | some (Json.num n) => if n = 0 then Json.null else Json.num n
    | some (Json.bool b) => if b then Json.bool b else Json.null
    | some Json.null => Json.null
    | some v => v
    | none => Json.null)]

/-- Fallback analysis substituted on a parse failure (cv-agent.ts lines
164-170). -/
def fallbackAnalysis : Json :=
  Json.obj [
    ("overallScore", Json.num 70),
    ("sections", Json.obj []),
    ("strengths", Json.arr [Json.str "Document uploaded successfully"]),
    ("weaknesses", Json.arr [Json.str "Detailed analysis unavailable"]),
    ("recommendations", Json.arr [Json.str "Review CV structure manually"])]

/-- The single fallback improvement substituted on a parse failure
(cv-agent.ts lines 219-229). -/
def fallbackImprovement : Json :=
  Json.obj [
    ("id", Json.str "fallback-1"),
    ("type", Json.str "edit"),
    ("section", Json.str "general"),
    ("priority", Json.str "medium"),
    ("title", Json.str "Review and enhance"),
    ("description", Json.str "Manual review recommended"),
    ("reasoning", Json.str "Automatic analysis incomplete")]

/-- The fallback improvements payload (cv-agent.ts lines 218-230). -/
def fallbackImprovementsData : Json :=
  Json.obj [("improvements", Json.arr [fallbackImprovement])]

/-- Default content when a document has no parsed_content (cv-agent.ts
lines 113-116). -/
def defaultCvContent : Json :=
  Json.obj [("fullText", Json.str "No parsed content available"),
    ("pageCount", Json.num 0)]

/-- CVAgent.parseCVNode (cv-agent.ts lines 101-125): a document-store
failure is caught into the error field; a fetched document contributes
its parsed_content or the fixed default. -/
def parseCVNode (env : CVEnv) (state : CVState) : CVState :=
  match env.document with
  | Except.error e => { state with error := some e }
  | Except.ok pc =>
    { state with cvContent := match pc with
      | some c => c
      | none => defaultCvContent }

/-- CVAgent.analyzeStructureNode (cv-agent.ts lines 130-181): skip when
an error is already recorded; otherwise call the model, clean and parse
its output, and substitute the fallback analysis when parsing fails; a
model failure is caught into the error field. -/
def analyzeStructureNode (env : CVEnv) (state : CVState) :
    CVState × List DbOp :=
  if state.error.isSome then (state, [])
  else
    match env.structureResponse with
    | Except.error e =>
      ({ state with error := some e }, [DbOp.llmCall "analyzeStructure"])
    | Except.ok content =>
      let analysis :=
        match env.parse (cleanContent content) with
        | some j => j
        | none => fallbackAnalysis
      ({ state with analysis := analysis }, [DbOp.llmCall "analyzeStructure"])

/-- CVAgent.identifyImprovementsNode (cv-agent.ts lines 186-241): same
shape as the structure node, with the fallback improvements payload and
the `improvementsData.improvements || []` read. -/
def identifyImprovementsNode (env : CVEnv) (state : CVState) :
    CVState × List DbOp :=
  if state.error.isSome then (state, [])
  else
    match env.improvementsResponse with
    | Except.error e =>
      ({ state with error := some e }, [DbOp.llmCall "identifyImprovements"])
    | Except.ok content =>
      let improvementsData :=
        match env.parse (cleanContent content) with
        | some j => j
        | none => fallbackImprovementsData
      ({ state with improvements := jsonArrayField improvementsData "improvements" },
        [DbOp.llmCall "identifyImprovements"])

/-- CVAgent.saveResultsNode (cv-agent.ts lines 246-312): with a recorded
error, insert one failed task row; otherwise insert one completed task
row carrying analysis, improvements and document id, then one pending
approval row per improvement (only when the list is nonempty). Insert
errors are only logged by the source, so they do not influence the
node. -/
def saveResultsNode (state : CVState) : CVState × List DbOp :=
  match state.error with
  | some e =>
    (state, [DbOp.taskInsert
      ⟨state.sessionId, state.userId, "cv_analysis", "failed", none, some e⟩])
  | none =>
    let taskOp := DbOp.taskInsert
      ⟨state.sessionId, state.userId, "cv_analysis", "completed",
        some (Json.obj [("analysis", state.analysis),
          ("improvements", Json.arr state.improvements),
          ("documentId", Json.str state.documentId)]), none⟩
    let approvalOps :=
      if state.improvements.isEmpty then []
      else [DbOp.approvalInsert (state.improvements.map fun imp =>
        ⟨state.sessionId, state.userId, state.documentId,
          improvementChangeType imp, improvementOriginalContent imp, imp,
          "pending"⟩)]
    ({ state with approvalStatus := "pending" }, taskOp :: approvalOps)

/-- CVAgent.analyzeCV (cv-agent.ts lines 41-96): strictly sequential
stages, each followed by an error check that routes directly to the
persistence stage; the persistence stage runs exactly once on every
path. Every node catches its own exceptions, so the outer try/catch of
the source is unreachable in this model. -/
def analyzeCV (env : CVEnv) (documentId sessionId userId : String) :
    CVState × List DbOp :=
  let state0 : CVState :=
    ⟨userId, sessionId, documentId, Json.null, Json.null, [], "pending", none⟩
  let s1 := parseCVNode env state0
  if s1.error.isSome then saveResultsNode s1
  else
    let r2 := analyzeStructureNode env s1
    if r2.1.error.isSome then
      let r := saveResultsNode r2.1
      (r.1, r2.2 ++ r.2)
    else
      let r3 := identifyImprovementsNode env r2.1
      if r3.1.error.isSome then
        let r := saveResultsNode r3.1
        (r.1, r2.2 ++ r3.2 ++ r.2)
      else
        let r := saveResultsNode r3.1
        (r.1, r2.2 ++ r3.2 ++ r.2)

/-- Fallback interview question substituted on a parse failure
(interview-agent.ts lines 204-216); the difficulty comes from the
state. -/
def fallbackQuestion (difficulty : String) : Json :=
  Json.obj [
    ("id", Json.str "fallback-1"),
    ("type", Json.str "behavioral"),
    ("category", Json.str "experience"),
    ("difficulty", Json.str difficulty),
    ("question", Json.str
      "Tell me about your most challenging project and how you handled it."),
    ("expectedAnswer", Json.str
      "Should include situation, task, action, and result (STAR method)"),
    ("evaluationCriteria", Json.arr [Json.str "Clear problem description",
      Json.str "Specific actions taken", Json.str "Measurable results"]),
    ("reasoning", Json.str "Fallback question - automatic generation failed")]

/-- Fallback questions payload (interview-agent.ts lines 203-222). -/
def fallbackQuestionsData (difficulty : String) : Json :=
  Json.obj [
    ("questions", Json.arr [fallbackQuestion difficulty]),
    ("interviewStructure", Json.obj [
      ("opening", Json.str "Start with introductions and set expectations"),
      ("focusAreas", Json.arr [Json.str "Technical skills", Json.str "Experience"]),
      ("closingTopics", Json.arr [Json.str "Questions for the interviewer"])])]

/-- InterviewAgent.generateQuestionsNode (interview-agent.ts lines
155-233), modelled on its inputs: the model call outcome, the JSON
parser, and the state's difficulty; returns the questions list or the
caught model error. -/
def generateQuestionsNode (response : Except String String)
    (parse : String → Option Json) (difficulty : String) :
    Except String (List Json) :=
  match response with
  | Except.error e => Except.error e
  | Except.ok content =>
    let questionsData :=
      match parse (cleanContent content) with
      | some j => j
      | none => fallbackQuestionsData difficulty
    Except.ok (jsonArrayField questionsData "questions")

/-- C3: when the model responds but its output fails to parse as JSON
after code-fence stripping, the stage substitutes the fixed fallback
payload and the pipeline still completes: the persisted task has status
completed with the fallback in its result, never status failed; the
interview agent's question node degrades the same way. -/
theorem malformed_output_falls_back (env : CVEnv)
    (documentId sessionId userId : String) (pc : Option Json)
    (raw1 raw2 : String)
    (hdoc : env.document = Except.ok pc)
    (h1 : env.structureResponse = Except.ok raw1)
    (h1p : env.parse (cleanContent raw1) = none)
    (h2 : env.improvementsResponse = Except.ok raw2)
    (h2p : env.parse (cleanContent raw2) = none) :
    (analyzeCV env documentId sessionId userId).1.error = none
      ∧ (analyzeCV env documentId sessionId userId).1.analysis = fallbackAnalysis
      ∧ (analyzeCV env documentId sessionId userId).1.improvements
          = [fallbackImprovement]
      ∧ (analyzeCV env documentId sessionId userId).2
          = [DbOp.llmCall "analyzeStructure", DbOp.llmCall "identifyImprovements",
             DbOp.taskInsert ⟨sessionId, userId, "cv_analysis", "completed",
               some (Json.obj [("analysis", fallbackAnalysis),
                 ("improvements", Json.arr [fallbackImprovement]),
                 ("documentId", Json.str documentId)]), none⟩,
             DbOp.approvalInsert [⟨sessionId, userId, documentId, "edit",
               Json.obj [("text", Json.null)], fallbackImprovement, "pending"⟩]]
      ∧ (∀ (difficulty raw : String) (parse : String → Option Json),
          parse (cleanContent raw) = none →
          generateQuestionsNode (Except.ok raw) parse difficulty
            = Except.ok [fallbackQuestion difficulty]) := by
  have himps : jsonArrayField fallbackImprovementsData "improvements"
      = [fallbackImprovement] := rfl
  have hct : improvementChangeType fallbackImprovement = "edit" := rfl
  have hoc : improvementOriginalContent fallbackImprovement
      = Json.obj [("text", Json.null)] := rfl
  refine ⟨?_, ?_, ?_, ?_, ?_⟩
  · simp [analyzeCV, parseCVNode, hdoc, analyzeStructureNode, h1, h1p,
      identifyImprovementsNode, h2, h2p, saveResultsNode, himps]
  · simp [analyzeCV, parseCVNode, hdoc, analyzeStructureNode, h1, h1p,
      identifyImprovementsNode, h2, h2p, saveResultsNode, himps]
  · simp [analyzeCV, parseCVNode, hdoc, analyzeStructureNode, h1, h1p,
      identifyImprovementsNode, h2, h2p, saveResultsNode, himps]
  · simp [analyzeCV, parseCVNode, hdoc, analyzeStructureNode, h1, h1p,
      identifyImprovementsNode, h2, h2p, saveResultsNode, himps, hct, hoc]
  · intro difficulty raw parse hp
    have hq : jsonArrayField (fallbackQuestionsData difficulty) "questions"
        = [fallbackQuestion difficulty] := rfl
    simp [generateQuestionsNode, hp, hq]

theorem malformed_output_falls_back_witness :
    (analyzeCV ⟨Except.ok none, Except.ok "x", Except.ok "y", fun _ => none,
        none, none⟩ "d" "s" "u").1.analysis = fallbackAnalysis :=
  (malformed_output_falls_back
    ⟨Except.ok none, Except.ok "x", Except.ok "y", fun _ => none, none, none⟩
    "d" "s" "u" none "x" "y" rfl rfl rfl rfl rfl).2.1

/-- Analysis value of a successful structure stage: the parsed cleaned
model output, or the fallback analysis on a parse failure. -/
def cvAnalysisOf (env : CVEnv) (raw1 : String) : Json :=
  match env.parse (cleanContent raw1) with
  | some j => j
  | none => fallbackAnalysis

/-- Improvements list of a successful improvements stage: the
`improvements` array of the parsed cleaned model output, or of the
fallback payload on a parse failure. -/
def cvImprovementsOf (env : CVEnv) (raw2 : String) : List Json :=
  jsonArrayField
    (match env.parse (cleanContent raw2) with
      | some j => j
      | none => fallbackImprovementsData) "improvements"

/-- C5: every pipeline run persists exactly one task insert, always with
a terminal status: a failing stage routes directly to persistence with
status failed carrying the stage's error (no later model call happens),
a fully successful run persists status completed plus one pending
approval row per produced improvement, and the run's outcome is
independent of the logged task/approval insert errors. -/
theorem pipeline_persists_one_terminal_task (env : CVEnv)
    (documentId sessionId userId : String) :
    ((analyzeCV env documentId sessionId userId).2.filter isTaskInsert).length = 1
      ∧ (∀ e, env.document = Except.error e →
          (analyzeCV env documentId sessionId userId).2
            = [DbOp.taskInsert ⟨sessionId, userId, "cv_analysis", "failed",
                none, some e⟩])
      ∧ (∀ pc e, env.document = Except.ok pc →
          env.structureResponse = Except.error e →
          (analyzeCV env documentId sessionId userId).2
            = [DbOp.llmCall "analyzeStructure",
               DbOp.taskInsert ⟨sessionId, userId, "cv_analysis", "failed",
                 none, some e⟩])
      ∧ (∀ pc raw1 e, env.document = Except.ok pc →
          env.structureResponse = Except.ok raw1 →
          env.improvementsResponse = Except.error e →
          (analyzeCV env documentId sessionId userId).2
            = [DbOp.llmCall "analyzeStructure", DbOp.llmCall "identifyImprovements",
               DbOp.taskInsert ⟨sessionId, userId, "cv_analysis", "failed",
                 none, some e⟩])
      ∧ (∀ pc raw1 raw2, env.document = Except.ok pc →
          env.structureResponse = Except.ok raw1 →
          env.improvementsResponse = Except.ok raw2 →
          (analyzeCV env documentId sessionId userId).2
            = [DbOp.llmCall "analyzeStructure", DbOp.llmCall "identifyImprovements",
               DbOp.taskInsert ⟨sessionId, userId, "cv_analysis", "completed",
                 some (Json.obj
                   [("analysis", cvAnalysisOf env raw1),
                    ("improvements", Json.arr (cvImprovementsOf env raw2)),
                    ("documentId", Json.str documentId)]), none⟩]
              ++ (if (cvImprovementsOf env raw2).isEmpty then []
                  else [DbOp.approvalInsert ((cvImprovementsOf env raw2).map
                    fun imp => ⟨sessionId, userId, documentId,
                      improvementChangeType imp, improvementOriginalContent imp,
                      imp, "pending"⟩)]))
      ∧ (∀ te ae,
          analyzeCV { env with taskInsertError := te, approvalInsertError := ae }
              documentId sessionId userId
            = analyzeCV env documentId sessionId userId) := by
  obtain ⟨doc, sresp, iresp, parse, tie, aie⟩ := env
  have h2case : ∀ e, doc = Except.error e →
      (analyzeCV ⟨doc, sresp, iresp, parse, tie, aie⟩
        documentId sessionId userId).2
        = [DbOp.taskInsert ⟨sessionId, userId, "cv_analysis", "failed",
            none, some e⟩] := by
    intro e he
    subst he
    simp [analyzeCV, parseCVNode, saveResultsNode]
  have h3case : ∀ pc e, doc = Except.ok pc → sresp = Except.error e →
      (analyzeCV ⟨doc, sresp, iresp, parse, tie, aie⟩
        documentId sessionId userId).2
        = [DbOp.llmCall "analyzeStructure",
           DbOp.taskInsert ⟨sessionId, userId, "cv_analysis", "failed",
             none, some e⟩] := by
    intro pc e hd hs
    subst hd
    subst hs
    simp [analyzeCV, parseCVNode, analyzeStructureNode, saveResultsNode]
  have h4case : ∀ pc raw1 e, doc = Except.ok pc → sresp = Except.ok raw1 →
      iresp = Except.error e →
      (analyzeCV ⟨doc, sresp, iresp, parse, tie, aie⟩
        documentId sessionId userId).2
        = [DbOp.llmCall "analyzeStructure", DbOp.llmCall "identifyImprovements",
           DbOp.taskInsert ⟨sessionId, userId, "cv_analysis", "failed",
             none, some e⟩] := by
    intro pc raw1 e hd hs hi
    subst hd
    subst hs
    subst hi
    simp [analyzeCV, parseCVNode, analyzeStructureNode,
      identifyImprovementsNode, saveResultsNode]
  have h5case : ∀ pc raw1 raw2, doc = Except.ok pc → sresp = Except.ok raw1 →
      iresp = Except.ok raw2 →
      (analyzeCV ⟨doc, sresp, iresp, parse, tie, aie⟩
        documentId sessionId userId).2
        = [DbOp.llmCall "analyzeStructure", DbOp.llmCall "identifyImprovements",
           DbOp.taskInsert ⟨sessionId, userId, "cv_analysis", "completed",
             some (Json.obj
               [("analysis", cvAnalysisOf ⟨doc, sresp, iresp, parse, tie, aie⟩ raw1),
                ("improvements", Json.arr
                  (cvImprovementsOf ⟨doc, sresp, iresp, parse, tie, aie⟩ raw2)),
                ("documentId", Json.str documentId)]), none⟩]
          ++ (if (cvImprovementsOf ⟨doc, sresp, iresp, parse, tie, aie⟩ raw2).isEmpty
              then []
              else [DbOp.approvalInsert
                ((cvImprovementsOf ⟨doc, sresp, iresp, parse, tie, aie⟩ raw2).map
                  fun imp => ⟨sessionId, userId, documentId,
                    improvementChangeType imp, improvementOriginalContent imp,
                    imp, "pending"⟩)]) := by
    intro pc raw1 raw2 hd hs hi
    subst hd
    subst hs
    subst hi
    simp [analyzeCV, parseCVNode, analyzeStructureNode,
      identifyImprovementsNode, saveResultsNode, cvAnalysisOf, cvImprovementsOf]
  refine ⟨?_, h2case, h3case, h4case, h5case, ?_⟩
  · cases doc with
    | error e =>
      rw [h2case e rfl]
      simp [isTaskInsert]
    | ok pc =>
      cases sresp with
      | error e =>
        rw [h3case pc e rfl rfl]
        simp [isTaskInsert]
      | ok raw1 =>
        cases iresp with
        | error e =>
          rw [h4case pc raw1 e rfl rfl rfl]
          simp [isTaskInsert]
        | ok raw2 =>
          rw [h5case pc raw1 raw2 rfl rfl rfl]
          by_cases hemp : (cvImprovementsOf
              ⟨Except.ok pc, Except.ok raw1, Except.ok raw2, parse, tie, aie⟩
              raw2).isEmpty
          · simp [hemp, isTaskInsert, List.filter_append]
          · simp [hemp, isTaskInsert, List.filter_append]
  · intro te ae
    rfl

theorem pipeline_persists_one_terminal_task_witness :
    (analyzeCV ⟨Except.error "Document not found", Except.ok "x", Except.ok "y",
        fun _ => none, none, none⟩ "d" "s" "u").2
      = [DbOp.taskInsert ⟨"s", "u", "cv_analysis", "failed", none,
          some "Document not found"⟩] :=
  (pipeline_persists_one_terminal_task
    ⟨Except.error "Document not found", Except.ok "x", Except.ok "y",
      fun _ => none, none, none⟩ "d" "s" "u").2.1 "Document not found" rfl

/- ========== CV generation service (cv-generation-service.ts) ========== -/

/-- The content payload of one approved improvement
(cv-generation-service.ts lines 4-14); `sectionName` models the source's
`content.section` field (`section` is reserved in Lean). -/
structure ImpContent where
  sectionName : String
  title : String
  description : String
  originalContent : Option String
  proposedContent : Option String

/-- One approved improvement passed to the generator. -/
structure ApprovedImprovement where
  id : String
  changeType : String
  content : ImpContent

/-- Result record of CVGenerationService.generateUpdatedCV
(cv-generation-service.ts lines 16-20). -/
structure CVGenerationResult where
  success : Bool
  updatedCV : String
  error : Option String

/-- One numbered entry of the improvements summary
(cv-generation-service.ts lines 86-94): the trimmed template
`{n}. [{TYPE}] {section or General}` with title, description and, when a
non-empty proposedContent is present, the proposed content line. -/
def renderImprovement (n : Nat) (imp : ApprovedImprovement) : String :=
  trimString ("\n" ++ toString n ++ ". [" ++ toUpperString imp.changeType ++ "] "
    ++ (if imp.content.sectionName = "" then "General" else imp.content.sectionName)
    ++ "\n   Title: " ++ imp.content.title
    ++ "\n   Description: " ++ imp.content.description
    ++ "\n   "
    ++ (match imp.content.proposedContent with
        | some p => if p = "" then "" else "Proposed Content: " ++ p
        | none => "")
    ++ "\n      ")

/-- The summary entries, one per improvement, numbered from 1 in input
order (the `improvements.map((imp, index) => …)` of
buildImprovementsSummary). -/
def summaryEntries (improvements : List ApprovedImprovement) : List String :=
  improvements.enum.map fun p => renderImprovement (p.1 + 1) p.2

/-- CVGenerationService.buildImprovementsSummary (lines 85-97): the
entries joined by blank lines. -/
def buildImprovementsSummary (improvements : List ApprovedImprovement) : String :=
  String.intercalate "\n\n" (summaryEntries improvements)

/-- Fixed prompt text preceding the original CV
(cv-generation-service.ts lines 103-106). -/
def generationPromptHeader : String :=
  "You are an expert CV writer. Your task is to update a CV by carefully applying a set of approved improvements.\n\n# ORIGINAL CV:\n"

/-- Fixed prompt text between the original CV and the improvements
summary (lines 107-109). -/
def generationPromptMiddle : String :=
  "\n\n# APPROVED IMPROVEMENTS TO APPLY:\n"

/-- Fixed prompt text following the improvements summary (lines
111-129). -/
def generationPromptInstructions : String :=
  "\n\n# INSTRUCTIONS:\n1. Read the original CV carefully\n2. Apply each approved improvement to the appropriate section\n3. Maintain the overall structure and formatting of the CV\n4. Keep all existing good content that wasn't mentioned in improvements\n5. For \"ADD\" changes: Insert new content in the appropriate location\n6. For \"EDIT\" changes: Modify existing content as described\n7. For \"DELETE\" changes: Remove the specified content\n8. Ensure the updated CV flows naturally and professionally\n9. Use clear section headings (e.g., # Professional Summary, ## Work Experience, ## Education, ## Skills)\n10. Return ONLY the updated CV content in markdown format\n11. Do NOT include any explanations, notes, or commentary - just the CV\n\n# OUTPUT FORMAT:\nReturn the complete updated CV in clean markdown format with proper headings and structure.\n\n---\n\nUPDATED CV:"

/-- CVGenerationService.createGenerationPrompt (lines 102-130): the
model request is the fixed template with exactly the original CV and the
improvements summary interpolated. -/
def createGenerationPrompt (originalCV improvementsSummary : String) : String :=
  generationPromptHeader ++ originalCV ++ generationPromptMiddle
    ++ improvementsSummary ++ generationPromptInstructions

/-- CVGenerationService.generateUpdatedCV (lines 43-80): build the
summary from the approved improvements passed in, build the prompt, call
the model; on success return its trimmed output, on a caught failure
return a typed failure with empty content. -/
def generateUpdatedCV (llm : String → Except String String)
    (originalCV : String) (approvedImprovements : List ApprovedImprovement) :
    CVGenerationResult :=
  let prompt := createGenerationPrompt originalCV
    (buildImprovementsSummary approvedImprovements)
  match llm prompt with
  | Except.ok content => ⟨true, trimString content, none⟩
  | Except.error e => ⟨false, "", some e⟩

/-- Contiguous-substring test on character lists: the needle occurs
somewhere in the hay. -/
def containsSub (needle : List Char) (hay : List Char) : Bool :=
  match hay with
  | [] => needle.isEmpty
  | _ :: t => needle.isPrefixOf hay || containsSub needle t

set_option maxRecDepth 4000 in
/-- C8: the model request built by the generator is exactly the fixed
template around the original CV and one numbered summary entry per
approved improvement passed in, in order — nothing else flows into the
request, so a rejected or pending suggestion's content can only appear
if it already occurs in those inputs (checked negatively on a concrete
scenario); on model failure the generator returns a typed failure with
empty content. -/
theorem generation_uses_only_approved (llm : String → Except String String)
    (originalCV : String) (imps : List ApprovedImprovement) :
    createGenerationPrompt originalCV (buildImprovementsSummary imps)
        = generationPromptHeader ++ originalCV ++ generationPromptMiddle
          ++ String.intercalate "\n\n" (summaryEntries imps)
          ++ generationPromptInstructions
      ∧ (summaryEntries imps).length = imps.length
      ∧ (∀ i (h : i < imps.length) (h2 : i < (summaryEntries imps).length),
          (summaryEntries imps).get ⟨i, h2⟩
            = renderImprovement (i + 1) (imps.get ⟨i, h⟩))
      ∧ (∀ e, llm (createGenerationPrompt originalCV
            (buildImprovementsSummary imps)) = Except.error e →
          generateUpdatedCV llm originalCV imps
            = ⟨false, "", some e⟩)
      ∧ (containsSub "APPROVED-TEXT-ALPHA".data
            (createGenerationPrompt "EXPERIENCE: built tools"
              (buildImprovementsSummary [⟨"a1", "edit",
                ⟨"summary", "Add metrics", "Quantify impact", none,
                  some "APPROVED-TEXT-ALPHA"⟩⟩])).data = true
          ∧ containsSub "REJECTED-TEXT-OMEGA".data
            (createGenerationPrompt "EXPERIENCE: built tools"
              (buildImprovementsSummary [⟨"a1", "edit",
                ⟨"summary", "Add metrics", "Quantify impact", none,
                  some "APPROVED-TEXT-ALPHA"⟩⟩])).data = false) := by
  refine ⟨rfl, ?_, ?_, ?_, rfl, rfl⟩
  · simp [summaryEntries]
  · intro i h h2
    simp [summaryEntries, List.get_eq_getElem, List.getElem_map,
      List.getElem_enum]
  · intro e he
    simp [generateUpdatedCV, he]

theorem generation_uses_only_approved_witness :
    generateUpdatedCV (fun _ => Except.error "boom") "cv" []
      = ⟨false, "", some "boom"⟩ :=
  (generation_uses_only_approved (fun _ => Except.error "boom") "cv" []).2.2.2.1
    "boom" rfl
